import Mathlib

/-!
Verification of the scan-orchestration and result-aggregation core of the
`advanced_osint` framework (`src/osint/framework.py` and
`src/osint/modules/dark.py`), as a shallow embedding in Lean.

Python dictionaries are embedded as insertion-ordered association lists from
`String` to a dynamic `Value` type; Python exceptions are embedded as
`Except String`; Python string comparison (lexicographic by Unicode code
point) is embedded as a boolean comparator on the underlying character
lists; Python's stable `sorted` is embedded as a stable insertion sort.
The float multiplication by the literal `1.5` in the trend computation is
embedded exactly, as the rational comparison `2*x > 3*y` in place of
`x > y * 1.5`.
-/

namespace OSINT

/-- Dynamic values, embedding the Python values the core manipulates. -/
inductive Value where
  | vNone : Value
  | vBool : Bool → Value
  | vInt : Int → Value
  | vStr : String → Value
  | vList : List Value → Value
  | vDict : List (String × Value) → Value
deriving Repr

/-- A Python dict as an insertion-ordered association list. -/
abbrev Payload := List (String × Value)

/-- Python truthiness (`if value:`) for the embedded values. -/
def truthy : Value → Bool
  | .vNone => false
  | .vBool b => b
  | .vInt n => decide (n ≠ 0)
  | .vStr s => decide (s ≠ "")
  | .vList l => !l.isEmpty
  | .vDict d => !d.isEmpty

/-- Python `d.get(k, default)`: the value at the first matching key, else the
default. -/
def dget (d : Payload) (k : String) (dflt : Value) : Value :=
  match d.find? (fun p => p.1 == k) with
  | some p => p.2
  | none => dflt

/-- Python `d[k]`: the value at the key, or a `KeyError`. -/
def dlookup (d : Payload) (k : String) : Except String Value :=
  match d.find? (fun p => p.1 == k) with
  | some p => .ok p.2
  | none => .error ("KeyError: " ++ k)

/-- Python `len(value)`: defined on sized values, a `TypeError` otherwise. -/
def pyLen : Value → Except String Nat
  | .vStr s => .ok s.length
  | .vList l => .ok l.length
  | .vDict d => .ok d.length
  | .vNone => .error "TypeError: object of type NoneType has no len()"
  | .vBool _ => .error "TypeError: object of type bool has no len()"
  | .vInt _ => .error "TypeError: object of type int has no len()"

/-! ### Lexicographic string comparison (Python `<=` on `str`) -/

/-- Lexicographic comparison of character lists by Unicode code point,
Python's ordering on strings. -/
def listLeB : List Char → List Char → Bool
  | [], _ => true
  | _ :: _, [] => false
  | a :: as, b :: bs =>
    if a.toNat < b.toNat then true
    else if b.toNat < a.toNat then false
    else listLeB as bs

/-- Python `s <= t` on strings. -/
def strLeB (s t : String) : Bool := listLeB s.data t.data

theorem listLeB_refl (x : List Char) : listLeB x x = true := by
  induction x with
  | nil => rfl
  | cons a as ih => simp [listLeB, ih]

theorem listLeB_total (x y : List Char) : listLeB x y = true ∨ listLeB y x = true := by
  induction x generalizing y with
  | nil => exact Or.inl rfl
  | cons a as ih =>
    cases y with
    | nil => exact Or.inr rfl
    | cons b bs =>
      by_cases hab : a.toNat < b.toNat
      · left; simp [listLeB, hab]
      · by_cases hba : b.toNat < a.toNat
        · right; simp [listLeB, hba, hab]
        · rcases ih bs with h | h
          · left; simp [listLeB, hab, hba, h]
          · right; simp [listLeB, hab, hba, h]

theorem listLeB_trans (x y z : List Char) (hxy : listLeB x y = true)
    (hyz : listLeB y z = true) : listLeB x z = true := by
  induction x generalizing y z with
  | nil => rfl
  | cons a as ih =>
    cases y with
    | nil => simp [listLeB] at hxy
    | cons b bs =>
      cases z with
      | nil => simp [listLeB] at hyz
      | cons c cs =>
        rcases Nat.lt_trichotomy a.toNat b.toNat with h1 | h1 | h1
        · rcases Nat.lt_trichotomy b.toNat c.toNat with h2 | h2 | h2
          · simp [listLeB, show a.toNat < c.toNat by omega]
          · simp [listLeB, show a.toNat < c.toNat by omega]
          · simp only [listLeB] at hyz
            rw [if_neg (by omega), if_pos h2] at hyz
            exact absurd hyz (by simp)
        · rcases Nat.lt_trichotomy b.toNat c.toNat with h2 | h2 | h2
          · simp [listLeB, show a.toNat < c.toNat by omega]
          · simp only [listLeB] at hxy hyz ⊢
            rw [if_neg (by omega), if_neg (by omega)] at hxy
            rw [if_neg (by omega), if_neg (by omega)] at hyz
            rw [if_neg (by omega), if_neg (by omega)]
            exact ih bs cs hxy hyz
          · simp only [listLeB] at hyz
            rw [if_neg (by omega), if_pos h2] at hyz
            exact absurd hyz (by simp)
        · simp only [listLeB] at hxy
          rw [if_neg (by omega), if_pos h1] at hxy
          exact absurd hxy (by simp)

theorem strLeB_refl (s : String) : strLeB s s = true := listLeB_refl s.data

theorem strLeB_total (s t : String) : strLeB s t = true ∨ strLeB t s = true :=
  listLeB_total s.data t.data

theorem strLeB_trans (s t u : String) (h₁ : strLeB s t = true)
    (h₂ : strLeB t u = true) : strLeB s u = true :=
  listLeB_trans s.data t.data u.data h₁ h₂

/-! ### Stable sort (Python `sorted`)

Python's `sorted` is stable: elements comparing equal keep their input
order.  `sinsert r a l` places `a` before the first element `b` of `l` with
`r a b`; folded over the input from the right this yields a stable sort. -/

def sinsert {α : Type} (r : α → α → Bool) (a : α) : List α → List α
  | [] => [a]
  | b :: bs => if r a b then a :: b :: bs else b :: sinsert r a bs

def ssort {α : Type} (r : α → α → Bool) : List α → List α
  | [] => []
  | a :: as => sinsert r a (ssort r as)

theorem sinsert_perm {α : Type} (r : α → α → Bool) (a : α) (l : List α) :
    (sinsert r a l).Perm (a :: l) := by
  induction l with
  | nil => exact List.Perm.refl _
  | cons b bs ih =>
    by_cases h : r a b = true
    · simp [sinsert, h]
    · simp only [sinsert, h, if_false]
      exact (ih.cons b).trans (List.Perm.swap a b bs)

theorem ssort_perm {α : Type} (r : α → α → Bool) (l : List α) :
    (ssort r l).Perm l := by
  induction l with
  | nil => exact List.Perm.refl _
  | cons a as ih =>
    exact (sinsert_perm r a (ssort r as)).trans (ih.cons a)

theorem sinsert_sorted {α : Type} (r : α → α → Bool)
    (htrans : ∀ x y z, r x y = true → r y z = true → r x z = true)
    (htot : ∀ x y, r x y = true ∨ r y x = true)
    (a : α) (l : List α) (hl : l.Pairwise (fun x y => r x y = true)) :
    (sinsert r a l).Pairwise (fun x y => r x y = true) := by
  induction l with
  | nil => simp [sinsert]
  | cons b bs ih =>
    rcases List.pairwise_cons.mp hl with ⟨hb, hbs⟩
    by_cases h : r a b = true
    · simp only [sinsert, h, if_true]
      refine List.pairwise_cons.mpr ⟨?_, hl⟩
      intro x hx
      rcases List.mem_cons.mp hx with hx | hx
      · subst hx; exact h
      · exact htrans a b x h (hb x hx)
    · simp only [sinsert, h, if_false]
      refine List.pairwise_cons.mpr ⟨?_, ih hbs⟩
      intro x hx
      have hperm := sinsert_perm r a bs
      have hx' : x ∈ a :: bs := hperm.mem_iff.mp hx
      rcases List.mem_cons.mp hx' with hx'' | hx''
      · subst hx''
        rcases htot b x with hbx | hxb
        · exact hbx
        · exact absurd hxb h
      · exact hb x hx''

theorem ssort_sorted {α : Type} (r : α → α → Bool)
    (htrans : ∀ x y z, r x y = true → r y z = true → r x z = true)
    (htot : ∀ x y, r x y = true ∨ r y x = true)
    (l : List α) : (ssort r l).Pairwise (fun x y => r x y = true) := by
  induction l with
  | nil => simp [ssort]
  | cons a as ih => exact sinsert_sorted r htrans htot a (ssort r as) ih

theorem filter_sinsert_pos {α : Type} (r : α → α → Bool) (p : α → Bool) (a : α)
    (hpa : p a = true) (hpr : ∀ b, p b = true → r a b = true) (l : List α) :
    (sinsert r a l).filter p = a :: l.filter p := by
  induction l with
  | nil => simp [sinsert, hpa]
  | cons b bs ih =>
    by_cases h : r a b = true
    · simp [sinsert, h, hpa]
    · have hpb : p b = false := by
        cases hcb : p b
        · rfl
        · exact absurd (hpr b hcb) h
      simp [sinsert, h, hpb, ih]

theorem filter_sinsert_neg {α : Type} (r : α → α → Bool) (p : α → Bool) (a : α)
    (hpa : p a = false) (l : List α) :
    (sinsert r a l).filter p = l.filter p := by
  induction l with
  | nil => simp [sinsert, hpa]
  | cons b bs ih =>
    by_cases h : r a b = true
    · simp [sinsert, h, hpa]
    · by_cases hpb : p b = true
      · simp [sinsert, h, hpb, ih]
      · simp [sinsert, h, Bool.of_not_eq_true hpb, ih]

/-- Stability of the embedded sort: elements within one equivalence class of
the comparator (all related both ways via `hkey`) keep their input order. -/
theorem filter_ssort {α : Type} (r : α → α → Bool) (p : α → Bool)
    (hkey : ∀ x y, p x = true → p y = true → r x y = true)
    (l : List α) : (ssort r l).filter p = l.filter p := by
  induction l with
  | nil => rfl
  | cons a as ih =>
    by_cases hpa : p a = true
    · have := filter_sinsert_pos r p a hpa (fun b hb => hkey a b hpa hb) (ssort r as)
      simp [ssort, this, ih, hpa]
    · have hpa' : p a = false := by
        cases hc : p a
        · rfl
        · exact absurd hc hpa
      have := filter_sinsert_neg r p a hpa' (ssort r as)
      simp [ssort, this, ih, hpa']

theorem ssort_length {α : Type} (r : α → α → Bool) (l : List α) :
    (ssort r l).length = l.length :=
  (ssort_perm r l).length_eq

/-! ### Framework core (`src/osint/framework.py`) -/

/-- `ScanTarget` of `framework.py`: the subject of one scan run. -/
structure ScanTarget where
  domain : String
  ip_addresses : Option (List String) := none
  subdomains : Option (List String) := none
  timestamp : String := ""
deriving Repr, DecidableEq

/-- `ScanResult` of `framework.py`: the uniform result envelope of one
module's execution. -/
structure ScanResult where
  target : ScanTarget
  module_name : String
  data : Payload
  timestamp : String := ""
  status : String := "success"
  error : Option String := none
deriving Repr

/-- A module: its name together with the body of its `run` method (the
`try`-block that gathers the data dictionary), which either returns a
payload or raises. -/
structure Module where
  module_name : String
  exec : ScanTarget → Except String Payload

/-- The `run` wrapper shared by every module (`PassiveReconModule.run`,
`ActiveReconModule.run`, `SocialMediaModule.run`, `DarkWebModule.run`, and
the module files under `src/osint/modules/`): on success it wraps the data
dictionary in a default (`success`, no error) envelope; on any exception it
returns an envelope with empty data, status `error` and the exception's
message. -/
def Module.run (m : Module) (t : ScanTarget) : ScanResult :=
  match m.exec t with
  | .ok data =>
      { target := t, module_name := m.module_name, data := data }
  | .error e =>
      { target := t, module_name := m.module_name, data := []
        status := "error", error := some e }

/-- The module-dispatch loop of `OSINTFramework.scan`: awaits each enabled
module's `run` in order and appends its envelope to `results`. -/
def scan (modules : List Module) (t : ScanTarget) : List ScanResult :=
  modules.map (fun m => m.run t)

/-- The four recognized module names, in the fixed order in which
`OSINTFramework.__init__` checks them. -/
def recognizedModules : List String :=
  ["passive_recon", "active_recon", "social_media", "dark_web"]

/-- One `if self.config.config[...][name]: self.modules.append(...)` step of
`OSINTFramework.__init__`, iterated over the recognized names: looks the
name up in the `modules` section of the configuration (a missing key is a
`KeyError`) and keeps it when its configured value is truthy. -/
def initModulesAux (cfg : Payload) : List String → Except String (List String)
  | [] => .ok []
  | n :: rest =>
    match dlookup cfg n with
    | .error e => .error e
    | .ok v =>
      match initModulesAux cfg rest with
      | .error e => .error e
      | .ok tail => .ok (if truthy v then n :: tail else tail)

/-- Module registration of `OSINTFramework.__init__`: given the `modules`
section of the configuration, the list of module names the framework
instantiates, in the order it instantiates them. -/
def initModules (cfg : Payload) : Except String (List String) :=
  initModulesAux cfg recognizedModules

/-! ### Sample targets, probes and configurations used as concrete inputs -/

def tEx : ScanTarget := { domain := "example.com" }

/-- A probe whose body succeeds with a small payload. -/
def probeOK : Module :=
  { module_name := "passive_recon"
    exec := fun _ => .ok [("whois", Value.vNone)] }

/-- A probe whose body raises. -/
def probeBad : Module :=
  { module_name := "active_recon"
    exec := fun _ => .error "network down" }

/-- A configuration whose declaration order is `dark_web` first, which also
declares (and enables) a probe name with no registered implementation. -/
def cfgC3 : Payload :=
  [("dark_web", .vBool true), ("passive_recon", .vBool true),
   ("active_recon", .vBool false), ("social_media", .vBool false),
   ("mystery_probe", .vBool true)]

/-- The enabled-filter applied by `__init__`: a recognized name is kept
exactly when its configured value is truthy. -/
def enabledIn (cfg : Payload) (n : String) : Bool :=
  match dlookup cfg n with
  | .ok v => truthy v
  | .error _ => false

theorem initModulesAux_ok (cfg : Payload) (names : List String)
    (h : ∀ n ∈ names, ∃ v, dlookup cfg n = .ok v) :
    initModulesAux cfg names = .ok (names.filter (enabledIn cfg)) := by
  induction names with
  | nil => rfl
  | cons n rest ih =>
    obtain ⟨v, hv⟩ := h n (List.mem_cons_self n rest)
    have ih' := ih (fun x hx => h x (List.mem_cons_of_mem n hx))
    have hp : enabledIn cfg n = truthy v := by simp [enabledIn, hv]
    simp only [initModulesAux, hv, ih', List.filter_cons, hp]

/-! ### Claims about the orchestration core -/

/-- C1: for every target and every sequence of N enabled probes, the
dispatch loop of `OSINTFramework.scan` returns exactly N result envelopes —
the envelope at each position is exactly the one produced by running the
probe at that position, so there are no omissions and no duplicates, and the
output order is the input probe order for any mix of success and failure
outcomes. -/
theorem scan_one_envelope_per_probe_in_order
    (modules : List Module) (t : ScanTarget) :
    (scan modules t).length = modules.length ∧
    ∀ i : Nat, (scan modules t)[i]? = (modules[i]?).map (fun m => m.run t) := by
  refine ⟨by simp [scan], ?_⟩
  intro i
  simp [scan]

/-- The error envelope built by the `except` branch of every module's
`run`: empty data, status `error`, the exception's message. -/
def errorEnvelope (t : ScanTarget) (name msg : String) : ScanResult :=
  { target := t, module_name := name, data := [], status := "error",
    error := some msg }

/-- C2: a probe whose execution raises any exception contributes an error
envelope carrying the exception's message instead of propagating the
exception; every other position's envelope is exactly what that probe alone
produces, and the scan still yields a full-length report. -/
theorem probe_failure_isolated
    (modules : List Module) (t : ScanTarget) (i : Nat) (m : Module)
    (msg : String) (hm : modules[i]? = some m) (he : m.exec t = .error msg) :
    (scan modules t)[i]? = some (errorEnvelope t m.module_name msg) ∧
    (scan modules t).length = modules.length ∧
    ∀ j : Nat, j ≠ i → (scan modules t)[j]? = (modules[j]?).map (fun m2 => m2.run t) := by
  refine ⟨?_, by simp [scan], ?_⟩
  · simp [scan, hm, Module.run, he, errorEnvelope]
  · intro j _
    simp [scan]

theorem probe_failure_isolated_witness :
    (([probeOK, probeBad] : List Module)[1]? = some probeBad ∧
      probeBad.exec tEx = .error "network down") ∧
    ((scan [probeOK, probeBad] tEx)[1]? =
        some (errorEnvelope tEx probeBad.module_name "network down") ∧
     (scan [probeOK, probeBad] tEx).length = ([probeOK, probeBad] : List Module).length ∧
     ∀ j : Nat, j ≠ 1 → (scan [probeOK, probeBad] tEx)[j]? =
        (([probeOK, probeBad] : List Module)[j]?).map (fun m2 => m2.run tEx)) :=
  ⟨⟨rfl, rfl⟩, probe_failure_isolated [probeOK, probeBad] tEx 1 probeBad "network down" rfl rfl⟩

/-- C6: every envelope produced by the shared `run` wrapper satisfies the
invariant: when its status is `error` its payload is the empty mapping, and
when its status is `success` its error message is absent. -/
theorem envelope_invariant (m : Module) (t : ScanTarget) :
    ((m.run t).status = "error" → (m.run t).data = []) ∧
    ((m.run t).status = "success" → (m.run t).error = none) := by
  cases he : m.exec t with
  | ok data =>
      refine ⟨fun h => ?_, fun _ => ?_⟩
      · simp only [Module.run, he] at h
        exact absurd h (by decide)
      · simp only [Module.run, he]
  | error e =>
      refine ⟨fun _ => ?_, fun h => ?_⟩
      · simp only [Module.run, he]
      · simp only [Module.run, he] at h
        exact absurd h (by decide)

theorem envelope_invariant_witness :
    (probeBad.run tEx).status = "error" ∧ (probeBad.run tEx).data = [] ∧
    (probeOK.run tEx).status = "success" ∧ (probeOK.run tEx).error = none :=
  ⟨rfl, (envelope_invariant probeBad tEx).1 rfl, rfl,
    (envelope_invariant probeOK tEx).2 rfl⟩

/-- C3 counterexample: on a configuration whose declaration order is
`dark_web`, `passive_recon`, … and which declares an enabled probe name
(`mystery_probe`) with no registered implementation, module registration
succeeds (no `ConfigurationError` — none exists in the code) and yields the
fixed registration order `passive_recon, dark_web`, not the declaration
order `dark_web, passive_recon`. -/
theorem initModules_counterexample :
    initModules cfgC3 = .ok ["passive_recon", "dark_web"] ∧
    (["passive_recon", "dark_web"] : List String) ≠ ["dark_web", "passive_recon"] :=
  ⟨rfl, by decide⟩

/-- C3 amended: given the `modules` section of the configuration in which
every recognized name (`passive_recon`, `active_recon`, `social_media`,
`dark_web`) is declared, the framework registers exactly the enabled
recognized probes in that fixed order — not in configuration declaration
order — and silently ignores any declared name outside the recognized four;
when a recognized name is missing, registration fails with a `KeyError`
naming it (the code has no `ConfigurationError`). -/
theorem initModules_fixed_order
    (cfg : Payload)
    (h : ∀ n ∈ recognizedModules, ∃ v, dlookup cfg n = .ok v) :
    initModules cfg = .ok (recognizedModules.filter (enabledIn cfg)) ∧
    initModules [] = .error "KeyError: passive_recon" :=
  ⟨initModulesAux_ok cfg recognizedModules h, rfl⟩

theorem initModules_fixed_order_witness :
    (∀ n ∈ recognizedModules, ∃ v, dlookup cfgC3 n = .ok v) ∧
    (initModules cfgC3 = .ok (recognizedModules.filter (enabledIn cfgC3)) ∧
     initModules [] = .error "KeyError: passive_recon") := by
  have h : ∀ n ∈ recognizedModules, ∃ v, dlookup cfgC3 n = .ok v := by
    intro n hn
    simp only [recognizedModules, List.mem_cons, List.not_mem_nil, or_false] at hn
    rcases hn with rfl | rfl | rfl | rfl
    · exact ⟨_, rfl⟩
    · exact ⟨_, rfl⟩
    · exact ⟨_, rfl⟩
    · exact ⟨_, rfl⟩
  exact ⟨h, initModules_fixed_order cfgC3 h⟩

/-! ### Aggregation core (`src/osint/modules/dark.py`) -/

/-- A dated sub-event on the exposure timeline (an element of `all_events`
in `_analyze_findings`); `date` is an ISO `YYYY-MM-DD…` string. -/
structure Event where
  date : String
  info : Value

/-- The ordering of `sorted(all_events, key=lambda x: x['date'],
reverse=True)`: `a` may precede `b` exactly when `a.date ≥ b.date`. -/
def dateGeB (a b : Event) : Bool := strLeB b.date a.date

/-- Python's stable descending-by-date sort of the timeline. -/
def sortTimeline (evs : List Event) : List Event := ssort dateGeB evs

/-- The `YYYY-MM` month bucket of an event (`event['date'][:7]`). -/
def monthKey (e : Event) : String := e.date.take 7

/-- One `months[month] = months.get(month, 0) + 1` update of the
insertion-ordered month dictionary. -/
def bumpMonth : List (String × Nat) → String → List (String × Nat)
  | [], m => [(m, 1)]
  | (k, c) :: rest, m =>
    if k = m then (k, c + 1) :: rest else (k, c) :: bumpMonth rest m

/-- The `months` dictionary of `_calculate_exposure_trend`: events grouped
by month bucket, buckets in first-occurrence order, with their counts. -/
def monthCounts (timeline : List Event) : List (String × Nat) :=
  timeline.foldl (fun acc e => bumpMonth acc (monthKey e)) []

/-- `sorted(months.items())`: the month buckets in ascending lexicographic
key order.  The keys of the `months` dictionary are distinct, so Python's
pair comparison never reaches the count component and comparing keys alone
is exact. -/
def sortedMonths (timeline : List Event) : List (String × Nat) :=
  ssort (fun a b => strLeB a.1 b.1) (monthCounts timeline)

/-- Events counted in the most recent three month buckets
(`sorted_months[-3:]`). -/
def recentEvents (timeline : List Event) : Nat :=
  (((sortedMonths timeline).drop ((sortedMonths timeline).length - 3)).map
    Prod.snd).sum

/-- Events counted in all earlier buckets (`sorted_months[:-3]`). -/
def olderEvents (timeline : List Event) : Nat :=
  (((sortedMonths timeline).take ((sortedMonths timeline).length - 3)).map
    Prod.snd).sum

/-- `DarkWebModule._calculate_exposure_trend`.  The comparisons against the
float literal `1.5` are embedded exactly: `recent > older * 1.5` as
`2 * recent > 3 * older` and `recent * 1.5 < older` as
`3 * recent < 2 * older`. -/
def calculateExposureTrend (timeline : List Event) : String :=
  if timeline.isEmpty then "insufficient_data"
  else if (sortedMonths timeline).length < 2 then "insufficient_data"
  else if 2 * recentEvents timeline > 3 * olderEvents timeline then "increasing"
  else if 3 * recentEvents timeline < 2 * olderEvents timeline then "decreasing"
  else "stable"

/-- The recommendation strings one source adds to the set in
`_generate_recommendations`: two fixed strings when `known_breaches` is
truthy, two fixed strings when `recent_pastes` or `mentions` is truthy. -/
def recRules (source : Payload) : List String :=
  (if truthy (dget source "known_breaches" .vNone) then
    ["Implement regular security assessments and penetration testing",
     "Review and update incident response procedures"]
   else []) ++
  (if truthy (dget source "recent_pastes" .vNone) ||
      truthy (dget source "mentions" .vNone) then
    ["Enhance monitoring of public data exposure",
     "Implement data loss prevention (DLP) solutions"]
   else [])

/-- All strings added to the `recommendations` set across the sources. -/
def collectRecs : List Payload → List String
  | [] => []
  | s :: rest => recRules s ++ collectRecs rest

/-- `DarkWebModule._generate_recommendations`: the members of the
accumulated set, in ascending lexicographic order
(`sorted(list(recommendations))`). -/
def generateRecommendations (sources : List Payload) : List String :=
  ssort strLeB (collectRecs sources).dedup

/-- The `statistics` sub-dictionary of the analysis block. -/
structure Statistics where
  total_breaches : Nat
  total_pastes : Nat
  total_mentions : Nat
  exposure_trend : String

/-- The analysis block built by `_analyze_findings`.  `statistics = none`
embeds the initial `{}` placeholder still in place when the computation
aborts before reaching the statistics step. -/
structure Analysis where
  risk_score : Nat
  recommendations : List String
  timeline : List Event
  statistics : Option Statistics
  error : Option String

/-- The four indicator counts of the `risk_factors` dictionary, in
evaluation order; the first failing `len()` aborts with its message. -/
def riskFactors (breach paste forum market : Payload) :
    Except String (Nat × Nat × Nat × Nat) :=
  match pyLen (dget breach "known_breaches" (.vList [])) with
  | .error e => .error e
  | .ok nb =>
    match pyLen (dget paste "recent_pastes" (.vList [])) with
    | .error e => .error e
    | .ok np =>
      match pyLen (dget forum "mentions" (.vList [])) with
      | .error e => .error e
      | .ok nf =>
        match pyLen (dget market "mentions" (.vList [])) with
        | .error e => .error e
        | .ok nm => .ok (nb, np, nf, nm)

/-- Modelled from the spec: `_events_from_breaches`, `_events_from_pastes`
and `_events_from_forums` are called by `_analyze_findings` but are missing
from the source; per the spec each collects the dated sub-events its
payload exposes.  They are supplied as the parameters `evB`, `evP`, `evF`,
and `all_events` is their concatenation in call order. -/
def allEvents (evB evP evF : Payload → List Event)
    (breach paste forum : Payload) : List Event :=
  evB breach ++ evP paste ++ evF forum

/-- `DarkWebModule._analyze_findings`: computes the weighted risk factors
(aborting to the default block with an error message when a `len()` fails,
before any field beyond `risk_score`'s default is assigned), then the
descending timeline, the recommendation list, and the statistics with the
exposure trend. -/
def analyzeFindings (evB evP evF : Payload → List Event)
    (breach paste forum market : Payload) : Analysis :=
  match riskFactors breach paste forum market with
  | .error e =>
      { risk_score := 0, recommendations := [], timeline := [],
        statistics := none, error := some e }
  | .ok (nb, np, nf, nm) =>
      let tl := sortTimeline (allEvents evB evP evF breach paste forum)
      { risk_score := min (nb * 10 + np * 5 + nf * 2 + nm * 8) 100
        recommendations := generateRecommendations [breach, paste, forum, market]
        timeline := tl
        statistics := some (Statistics.mk nb np nf (calculateExposureTrend tl))
        error := none }

/-! ### Supporting lemmas about the month buckets -/

theorem bumpMonth_sum (acc : List (String × Nat)) (m : String) :
    ((bumpMonth acc m).map Prod.snd).sum = (acc.map Prod.snd).sum + 1 := by
  induction acc with
  | nil => simp [bumpMonth]
  | cons p rest ih =>
    obtain ⟨k, c⟩ := p
    by_cases h : k = m <;> simp [bumpMonth, h, ih] <;> omega

theorem monthCounts_sum_aux (tl : List Event) (acc : List (String × Nat)) :
    ((tl.foldl (fun a e => bumpMonth a (monthKey e)) acc).map Prod.snd).sum
      = (acc.map Prod.snd).sum + tl.length := by
  induction tl generalizing acc with
  | nil => simp
  | cons e rest ih =>
    simp only [List.foldl_cons, ih, bumpMonth_sum, List.length_cons]
    omega

/-- The month-bucket counts sum to the number of timeline events. -/
theorem monthCounts_sum (tl : List Event) :
    ((monthCounts tl).map Prod.snd).sum = tl.length := by
  simpa using monthCounts_sum_aux tl []

/-- Sorting the buckets does not change the total count. -/
theorem sortedMonths_sum (tl : List Event) :
    ((sortedMonths tl).map Prod.snd).sum = tl.length := by
  have hperm := (ssort_perm (fun a b => strLeB a.1 b.1) (monthCounts tl)).map Prod.snd
  rw [sortedMonths, hperm.sum_eq, monthCounts_sum]

theorem sortedMonths_nil : sortedMonths [] = [] := rfl

theorem isEmpty_of_sortedMonths (tl : List Event)
    (h : (sortedMonths tl).length = 0) : tl.length = 0 := by
  have := sortedMonths_sum tl
  rcases hsm : sortedMonths tl with _ | ⟨p, rest⟩
  · rw [hsm] at this; simpa using this.symm
  · rw [hsm] at h; simp at h

/-! ### Claims about the aggregation core -/

/-- C4: the trend classification is `insufficient_data` exactly when fewer
than 2 distinct month buckets exist; with at least 2 buckets it is
`increasing` exactly when recent > older·1.5, `decreasing` exactly when
older > recent·1.5, and `stable` otherwise (recent being the event count of
the most recent three month buckets, older that of all earlier buckets). -/
theorem trend_classification (timeline : List Event) :
    (calculateExposureTrend timeline = "insufficient_data" ↔
      (sortedMonths timeline).length < 2) ∧
    (2 ≤ (sortedMonths timeline).length →
      ((calculateExposureTrend timeline = "increasing" ↔
          2 * recentEvents timeline > 3 * olderEvents timeline) ∧
       (calculateExposureTrend timeline = "decreasing" ↔
          3 * recentEvents timeline < 2 * olderEvents timeline) ∧
       (calculateExposureTrend timeline = "stable" ↔
          (¬ 2 * recentEvents timeline > 3 * olderEvents timeline ∧
           ¬ 3 * recentEvents timeline < 2 * olderEvents timeline)))) := by
  by_cases hemp : timeline.isEmpty = true
  · have htl : timeline = [] := List.isEmpty_iff.mp hemp
    subst htl
    refine ⟨?_, ?_⟩
    · rw [show calculateExposureTrend [] = "insufficient_data" from rfl]
      exact iff_of_true rfl (by rw [sortedMonths_nil]; simp)
    · intro h
      rw [sortedMonths_nil] at h
      simp at h
  · have hemp' : timeline.isEmpty = false := by
      cases h : timeline.isEmpty
      · rfl
      · exact absurd h hemp
    by_cases hlen : (sortedMonths timeline).length < 2
    · have htr : calculateExposureTrend timeline = "insufficient_data" := by
        simp [calculateExposureTrend, hemp', hlen]
      refine ⟨iff_of_true htr hlen, fun h => ?_⟩
      omega
    · have hge : ¬ (sortedMonths timeline).length < 2 := hlen
      by_cases hinc : 2 * recentEvents timeline > 3 * olderEvents timeline
      · have htr : calculateExposureTrend timeline = "increasing" := by
          simp [calculateExposureTrend, hemp', hge, hinc]
        refine ⟨by rw [htr]; exact iff_of_false (by decide) hlen, fun _ => ?_⟩
        refine ⟨by rw [htr]; exact iff_of_true rfl hinc, ?_, ?_⟩
        · rw [htr]
          exact iff_of_false (by decide) (by omega)
        · rw [htr]
          exact iff_of_false (by decide) (fun hc => hc.1 hinc)
      · by_cases hdec : 3 * recentEvents timeline < 2 * olderEvents timeline
        · have htr : calculateExposureTrend timeline = "decreasing" := by
            simp [calculateExposureTrend, hemp', hge, hinc, hdec]
          refine ⟨by rw [htr]; exact iff_of_false (by decide) hlen, fun _ => ?_⟩
          refine ⟨?_, by rw [htr]; exact iff_of_true rfl hdec, ?_⟩
          · rw [htr]
            exact iff_of_false (by decide) hinc
          · rw [htr]
            exact iff_of_false (by decide) (fun hc => hc.2 hdec)
        · have htr : calculateExposureTrend timeline = "stable" := by
            simp [calculateExposureTrend, hemp', hge, hinc, hdec]
          refine ⟨by rw [htr]; exact iff_of_false (by decide) hlen, fun _ => ?_⟩
          refine ⟨?_, ?_, by rw [htr]; exact iff_of_true rfl ⟨hinc, hdec⟩⟩
          · rw [htr]
            exact iff_of_false (by decide) hinc
          · rw [htr]
            exact iff_of_false (by decide) hdec

/-- `n` timeline events dated `date`. -/
def mkEvents (date : String) (n : Nat) : List Event :=
  List.replicate n ⟨date, .vNone⟩

/-- Four month buckets with counts 5, 4, 3, 3: recent = 10, older = 5. -/
def exIncr : List Event :=
  mkEvents "2023-01-15" 5 ++ mkEvents "2023-02-15" 4 ++
  mkEvents "2023-03-15" 3 ++ mkEvents "2023-04-15" 3

/-- Four month buckets with counts 10, 2, 1, 1: recent = 4, older = 10. -/
def exDecr : List Event :=
  mkEvents "2023-01-15" 10 ++ mkEvents "2023-02-15" 2 ++
  mkEvents "2023-03-15" 1 ++ mkEvents "2023-04-15" 1

/-- Four month buckets with counts 5, 2, 2, 1: recent = 5, older = 5. -/
def exStable : List Event :=
  mkEvents "2023-01-15" 5 ++ mkEvents "2023-02-15" 2 ++
  mkEvents "2023-03-15" 2 ++ mkEvents "2023-04-15" 1

theorem trend_classification_witness :
    (2 ≤ (sortedMonths exIncr).length ∧
      recentEvents exIncr = 10 ∧ olderEvents exIncr = 5 ∧
      calculateExposureTrend exIncr = "increasing") ∧
    (recentEvents exDecr = 4 ∧ olderEvents exDecr = 10 ∧
      calculateExposureTrend exDecr = "decreasing") ∧
    (recentEvents exStable = 5 ∧ olderEvents exStable = 5 ∧
      calculateExposureTrend exStable = "stable") :=
  ⟨⟨by decide, by decide, by decide,
     ((trend_classification exIncr).2 (by decide)).1.mpr (by decide)⟩,
   ⟨by decide, by decide,
     (((trend_classification exDecr).2 (by decide)).2.1).mpr (by decide)⟩,
   ⟨by decide, by decide,
     (((trend_classification exStable).2 (by decide)).2.2).mpr (by decide)⟩⟩

/-- C10: when the timeline spans exactly 2 or 3 distinct month buckets, the
set of earlier buckets compared against the most recent three is empty, so
the older event count is 0 and the trend is always `increasing`. -/
theorem trend_few_buckets_always_increasing (timeline : List Event)
    (h : (sortedMonths timeline).length = 2 ∨ (sortedMonths timeline).length = 3) :
    olderEvents timeline = 0 ∧
    calculateExposureTrend timeline = "increasing" := by
  have hold : olderEvents timeline = 0 := by
    rcases h with h | h <;> simp [olderEvents, h]
  have hrec : recentEvents timeline = timeline.length := by
    have hle : (sortedMonths timeline).length - 3 = 0 := by omega
    rw [recentEvents, hle, List.drop_zero, sortedMonths_sum]
  have hne : timeline.length ≠ 0 := by
    intro hc
    have ht : timeline = [] := List.length_eq_zero.mp hc
    rw [ht, sortedMonths_nil] at h
    simp at h
  have hemp' : timeline.isEmpty = false := by
    cases he : timeline.isEmpty
    · rfl
    · exact absurd (congrArg List.length (List.isEmpty_iff.mp he)) (by simpa using hne)
  have hinc : 2 * recentEvents timeline > 3 * olderEvents timeline := by
    rw [hold, hrec]; omega
  refine ⟨hold, ?_⟩
  have hge : ¬ (sortedMonths timeline).length < 2 := by omega
  simp [calculateExposureTrend, hemp', hge, hinc]

/-- Two month buckets, counts 1 and 1. -/
def exTwoBuckets : List Event :=
  [⟨"2024-05-01", .vNone⟩, ⟨"2024-06-09", .vNone⟩]

theorem trend_few_buckets_witness :
    ((sortedMonths exTwoBuckets).length = 2 ∨
      (sortedMonths exTwoBuckets).length = 3) ∧
    (olderEvents exTwoBuckets = 0 ∧
      calculateExposureTrend exTwoBuckets = "increasing") :=
  ⟨by decide, trend_few_buckets_always_increasing exTwoBuckets (by decide)⟩

/-- C5: the computed risk score always lies in [0, 100]: it is the weighted
sum of the four indicator counts (10·breaches + 5·pastes + 2·forum +
8·market) clamped to at most 100, never negative, and 0 on empty input. -/
theorem risk_score_in_range (evB evP evF : Payload → List Event)
    (breach paste forum market : Payload) :
    (analyzeFindings evB evP evF breach paste forum market).risk_score ≤ 100 ∧
    0 ≤ (analyzeFindings evB evP evF breach paste forum market).risk_score ∧
    (∀ nb np nf nm, riskFactors breach paste forum market = .ok (nb, np, nf, nm) →
      (analyzeFindings evB evP evF breach paste forum market).risk_score
        = min (nb * 10 + np * 5 + nf * 2 + nm * 8) 100) ∧
    (analyzeFindings evB evP evF [] [] [] []).risk_score = 0 := by
  refine ⟨?_, Nat.zero_le _, ?_, rfl⟩
  · cases h : riskFactors breach paste forum market with
    | error e => simp [analyzeFindings, h]
    | ok q =>
      obtain ⟨nb, np, nf, nm⟩ := q
      simp only [analyzeFindings, h]
      exact min_le_right _ _
  · intro nb np nf nm h
    simp [analyzeFindings, h]

/-- A payload with one known breach record. -/
def breachSample : Payload :=
  [("known_breaches", .vList [.vDict [("Name", .vStr "ExampleBreach")]])]

theorem risk_score_in_range_witness :
    riskFactors breachSample [] [] [] = .ok (1, 0, 0, 0) ∧
    (analyzeFindings (fun _ => []) (fun _ => []) (fun _ => [])
        breachSample [] [] []).risk_score
      = min (1 * 10 + 0 * 5 + 0 * 2 + 0 * 8) 100 :=
  ⟨rfl, (risk_score_in_range (fun _ => []) (fun _ => []) (fun _ => [])
      breachSample [] [] []).2.2.1 1 0 0 0 rfl⟩

/-- C7: when the indicator counts succeed, the analysis timeline is exactly
the collected dated sub-events sorted by date descending (most recent
first), a permutation of the input events, with events of equal date kept
in their stable input order. -/
theorem timeline_sorted_desc_stable (evB evP evF : Payload → List Event)
    (breach paste forum market : Payload) (counts : Nat × Nat × Nat × Nat)
    (h : riskFactors breach paste forum market = .ok counts) :
    (analyzeFindings evB evP evF breach paste forum market).timeline
        = sortTimeline (allEvents evB evP evF breach paste forum) ∧
    ((analyzeFindings evB evP evF breach paste forum market).timeline).Perm
        (allEvents evB evP evF breach paste forum) ∧
    ((analyzeFindings evB evP evF breach paste forum market).timeline).Pairwise
        (fun a b => strLeB b.date a.date = true) ∧
    ∀ d, ((analyzeFindings evB evP evF breach paste forum market).timeline).filter
          (fun e => e.date == d)
        = (allEvents evB evP evF breach paste forum).filter
          (fun e => e.date == d) := by
  obtain ⟨nb, np, nf, nm⟩ := counts
  have htl : (analyzeFindings evB evP evF breach paste forum market).timeline
      = sortTimeline (allEvents evB evP evF breach paste forum) := by
    simp [analyzeFindings, h]
  refine ⟨htl, ?_, ?_, ?_⟩
  · rw [htl]
    exact ssort_perm _ _
  · rw [htl]
    exact ssort_sorted dateGeB
      (fun x y z hxy hyz => strLeB_trans z.date y.date x.date hyz hxy)
      (fun x y => strLeB_total y.date x.date) _
  · intro d
    rw [htl]
    refine filter_ssort dateGeB (fun e => e.date == d) ?_ _
    intro x y hx hy
    have hx' : x.date = d := eq_of_beq hx
    have hy' : y.date = d := eq_of_beq hy
    show strLeB y.date x.date = true
    rw [hx', hy']
    exact strLeB_refl d

def evBSample : Payload → List Event :=
  fun _ => [⟨"2024-05-01", .vStr "breach"⟩]

def evPSample : Payload → List Event :=
  fun _ => [⟨"2024-07-01", .vStr "paste"⟩, ⟨"2024-05-01", .vStr "paste2"⟩]

def evFSample : Payload → List Event := fun _ => []

theorem timeline_sorted_desc_stable_witness :
    riskFactors [] [] [] [] = .ok (0, 0, 0, 0) ∧
    ((analyzeFindings evBSample evPSample evFSample [] [] [] []).timeline
        = sortTimeline (allEvents evBSample evPSample evFSample [] [] []) ∧
     ((analyzeFindings evBSample evPSample evFSample [] [] [] []).timeline).Perm
        (allEvents evBSample evPSample evFSample [] [] []) ∧
     ((analyzeFindings evBSample evPSample evFSample [] [] [] []).timeline).Pairwise
        (fun a b => strLeB b.date a.date = true) ∧
     ∀ d, ((analyzeFindings evBSample evPSample evFSample [] [] [] []).timeline).filter
          (fun e => e.date == d)
        = (allEvents evBSample evPSample evFSample [] [] []).filter
          (fun e => e.date == d)) :=
  ⟨rfl, timeline_sorted_desc_stable evBSample evPSample evFSample
      [] [] [] [] (0, 0, 0, 0) rfl⟩

theorem collectRecs_mem (s : String) (sources : List Payload) :
    s ∈ collectRecs sources ↔ ∃ src ∈ sources, s ∈ recRules src := by
  induction sources with
  | nil => simp [collectRecs]
  | cons a rest ih => simp [collectRecs, List.mem_append, ih]

/-- C8: the recommendation list is deduplicated and lexicographically
sorted; a string is in it exactly when some source triggers its rule, and
then it appears exactly once, even when several sources trigger the same
rule. -/
theorem recommendations_dedup_sorted (sources : List Payload) :
    (generateRecommendations sources).Nodup ∧
    (generateRecommendations sources).Pairwise (fun a b => strLeB a b = true) ∧
    (∀ s, s ∈ generateRecommendations sources ↔ ∃ src ∈ sources, s ∈ recRules src) ∧
    (∀ s, s ∈ generateRecommendations sources →
      (generateRecommendations sources).count s = 1) := by
  have hperm := ssort_perm strLeB (collectRecs sources).dedup
  have hnodup : (generateRecommendations sources).Nodup :=
    (hperm.nodup_iff).mpr (collectRecs sources).nodup_dedup
  refine ⟨hnodup, ?_, ?_, ?_⟩
  · exact ssort_sorted strLeB strLeB_trans strLeB_total _
  · intro s
    rw [generateRecommendations] at hnodup ⊢
    rw [hperm.mem_iff, List.mem_dedup]
    exact collectRecs_mem s sources
  · intro s hs
    exact List.count_eq_one_of_mem hnodup hs

def breachSrcA : Payload := [("known_breaches", .vList [.vStr "b1"])]

def breachSrcB : Payload := [("known_breaches", .vList [.vStr "b2"])]

theorem recommendations_dedup_sorted_witness :
    "Implement regular security assessments and penetration testing"
        ∈ generateRecommendations [breachSrcA, breachSrcB] ∧
    (generateRecommendations [breachSrcA, breachSrcB]).count
        "Implement regular security assessments and penetration testing" = 1 :=
  ⟨by decide,
   (recommendations_dedup_sorted [breachSrcA, breachSrcB]).2.2.2 _ (by decide)⟩

/-- A payload whose `known_breaches` field has a wrong, unsized type. -/
def badBreach : Payload := [("known_breaches", .vInt 1)]

/-- C9 counterexample: with a wrong-type `known_breaches` field the
aggregator does not treat the field as zero/empty for that indicator — the
whole analysis computation aborts internally: unlike the absent-field run
(no error, statistics computed), the wrong-type run carries a `TypeError`
message and computes no statistics. -/
theorem aggregation_wrong_type_counterexample :
    (analyzeFindings (fun _ => []) (fun _ => []) (fun _ => [])
        badBreach [] [] []).error
      = some "TypeError: object of type int has no len()" ∧
    (analyzeFindings (fun _ => []) (fun _ => []) (fun _ => [])
        badBreach [] [] []).statistics = none ∧
    (analyzeFindings (fun _ => []) (fun _ => []) (fun _ => [])
        [] [] [] []).error = none ∧
    (analyzeFindings (fun _ => []) (fun _ => []) (fun _ => [])
        [] [] [] []).statistics
      = some (Statistics.mk 0 0 0 "insufficient_data") :=
  ⟨rfl, rfl, rfl, rfl⟩

/-- C9 amended: aggregation never raises.  An absent indicator field is
treated as empty (count 0); a wrong-type field that has a length (such as a
string) contributes that length as the count; a wrong-type field with no
length makes the analysis catch the exception internally and return the
default analysis block carrying the error message — it does not substitute
zero for the affected field only.  When all counts succeed the analysis
completes without error. -/
theorem aggregation_malformed_fields (evB evP evF : Payload → List Event)
    (breach paste forum market : Payload) :
    (breach.find? (fun p => p.1 == "known_breaches") = none →
      pyLen (dget breach "known_breaches" (.vList [])) = .ok 0) ∧
    (∀ s, dget breach "known_breaches" (.vList []) = .vStr s →
      pyLen (dget breach "known_breaches" (.vList [])) = .ok s.length) ∧
    (∀ e, riskFactors breach paste forum market = .error e →
      analyzeFindings evB evP evF breach paste forum market =
        { risk_score := 0, recommendations := [], timeline := [],
          statistics := none, error := some e }) ∧
    (∀ q, riskFactors breach paste forum market = .ok q →
      (analyzeFindings evB evP evF breach paste forum market).error = none) := by
  refine ⟨?_, ?_, ?_, ?_⟩
  · intro h
    rw [dget, h]
    rfl
  · intro s h
    rw [h]
    rfl
  · intro e h
    simp [analyzeFindings, h]
  · intro q h
    obtain ⟨nb, np, nf, nm⟩ := q
    simp [analyzeFindings, h]

theorem aggregation_malformed_fields_witness :
    riskFactors badBreach [] [] []
      = .error "TypeError: object of type int has no len()" ∧
    analyzeFindings (fun _ => []) (fun _ => []) (fun _ => []) badBreach [] [] [] =
      { risk_score := 0, recommendations := [], timeline := [],
        statistics := none,
        error := some "TypeError: object of type int has no len()" } :=
  ⟨rfl, (aggregation_malformed_fields (fun _ => []) (fun _ => []) (fun _ => [])
      badBreach [] [] []).2.2.1 _ rfl⟩

end OSINT
